import Mathlib

/-!
Shallow embedding of `order.py`, a courier/order dispatch simulation.

The script runs a single-threaded cooperative (asyncio) simulation: a driver
submits orders two per one-second tick; for each order the manager concurrently
starts the order preparation timer and dispatches a courier whose travel delay
is drawn from a seeded pseudo-random generator.  Under the `matched` strategy
the courier is bound to its own order; under the `fifo` strategy the courier
claims the first ready unclaimed order in insertion order.  When a courier
picks an order up, the courier-side and order-side waits are recorded and
averaged.

Time is modelled in milliseconds as natural numbers, with every sleep taking
exactly its stated duration (the script itself declares wall-clock fidelity a
non-goal and uses scaled sleeps).  The shared pseudo-random generator is
modelled by a deterministic linear congruential generator; the properties used
about it are determinism from the seed and the `randint` range contract.
-/

namespace OrderSim

/-- One entry of the JSON input list: `{id, name, prepTime}` (seconds). -/
structure OrderDesc where
  id : String
  name : String
  prepTime : Nat
deriving Repr, DecidableEq

/-- Embeds the mutable fields of Python class `Order`: `ready_at` is set once
preparation finishes, `courier_id` is set once a FIFO courier claims it. -/
structure Order where
  id : String
  name : String
  prep_time : Nat
  ready_at : Option Nat
  courier_id : Option Nat
deriving Repr, DecidableEq

/-- `Courier.get_wait_time`: if the courier arrived strictly before the order
was ready it waited `ready_at - arrived_at` milliseconds, else zero. -/
def get_wait_time (arrived_at ready_at : Int) : Int :=
  if arrived_at < ready_at then ready_at - arrived_at else 0

/-- `Courier.get_order_wait_time`: zero if the courier arrived strictly before
the order was ready, else the order waited `arrived_at - ready_at`. -/
def get_order_wait_time (arrived_at ready_at : Int) : Int :=
  if arrived_at < ready_at then 0 else arrived_at - ready_at

/-- The scan condition of `OrderManager.get_next_order`:
`if order.ready_at and order.courier_id is None` (a datetime is truthy). -/
def claimable (o : Order) : Bool :=
  o.ready_at.isSome && o.courier_id.isNone

/-- The body of `OrderManager.get_next_order`'s polling loop: scan the order
collection in insertion order; the first claimable order gets its `courier_id`
set to the requesting courier's id and is returned together with the updated
collection.  `none` means no order is claimable on this poll. -/
def scan_orders (cid : Nat) : List Order → Option (Order × List Order)
  | [] => none
  | o :: rest =>
    if claimable o then
      some ({ o with courier_id := some cid }, { o with courier_id := some cid } :: rest)
    else
      match scan_orders cid rest with
      | none => none
      | some p => some (p.1, o :: p.2)

/-- `CourierManager.get_averages`: `sum(xs)/len(xs)` for each of the two wait
lists; dividing by the length of an empty list raises `ZeroDivisionError`,
modelled as `none`. -/
def get_averages (courier_wait_times order_wait_times : List ℚ) : Option (ℚ × ℚ) :=
  if courier_wait_times.length = 0 ∨ order_wait_times.length = 0 then none
  else
    some (courier_wait_times.sum / courier_wait_times.length,
          order_wait_times.sum / order_wait_times.length)

/-- The two dispatch strategies of the script. -/
inductive Strategy
  | matched
  | fifo
deriving Repr, DecidableEq

/-- The `strategies` dictionary in `main`: maps the selector string to the
courier-manager variant; an unknown key raises `KeyError`, modelled as `none`. -/
def strategies (name : String) : Option Strategy :=
  if name = "matched" then some Strategy.matched
  else if name = "fifo" then some Strategy.fifo
  else none

/-- One step of the seeded pseudo-random generator (`random`), modelled as a
64-bit linear congruential generator. -/
def rngNext (s : Nat) : Nat :=
  (6364136223846793005 * s + 1442695040888963407) % 18446744073709551616

/-- `random.randint(lo, hi)`: a uniform integer draw in `[lo, hi]` advancing
the generator state. -/
def randint (lo hi s : Nat) : Nat × Nat :=
  let t := rngNext s
  (lo + t % (hi + 1 - lo), t)

/-- The sequence of courier travel delays: one `random.randint(3, 15)` draw per
courier creation, threaded through the generator state in creation order. -/
def drawDelays : Nat → Nat → List Nat × Nat
  | 0, s => ([], s)
  | n + 1, s =>
    ((randint 3 15 s).1 :: (drawDelays n (randint 3 15 s).2).1,
     (drawDelays n (randint 3 15 s).2).2)

/-- The driver's submission loop in `main`: each iteration takes the first two
remaining descriptors (`orders_data[:2]`) as one tick's batch and removes them
(`del orders_data[:2]`) until the list is empty. -/
def submitBatches : List OrderDesc → List (List OrderDesc)
  | [] => []
  | [a] => [[a]]
  | a :: b :: rest => [a, b] :: submitBatches rest

/-- Submission time (ms) of the order at input position `k`: its batch
`k / 2` is submitted after `k / 2 + 1` one-second ticks. -/
def submitTime (k : Nat) : Nat :=
  1000 * (k / 2 + 1)

/-- Embeds the mutable fields of Python class `Courier` used by the FIFO run:
`arrived_at` is set once travel completes, `claimed` records that
`get_next_order` already returned an order to this courier. -/
structure SimCourier where
  id : Nat
  delay : Nat
  arriveTime : Nat
  arrived_at : Option Nat
  claimed : Bool
deriving Repr, DecidableEq

/-- One completed pairing: the courier, the picked order, and the two
timestamps the wait split is computed from. -/
structure Pairing where
  courierId : Nat
  orderId : String
  arrivedAt : Int
  readyAt : Int
deriving Repr, DecidableEq

/-- Recording a completed pairing: evaluating the wait split reads the
courier's `arrived_at` and the order's `ready_at`; if either is still unset
(`None`), the comparison in `get_wait_time` would fail (`TypeError`),
modelled as `none`. -/
def mkPairing (courierId : Nat) (orderId : String)
    (arrived_at ready_at : Option Nat) : Option Pairing :=
  match arrived_at, ready_at with
  | some a, some r => some ⟨courierId, orderId, (a : Int), (r : Int)⟩
  | _, _ => none

/-- The order collection at simulation start: every submitted descriptor in
insertion order, not yet ready and unclaimed (`OrderManager.prepare` inserts
the order before its preparation sleep finishes). -/
def initOrders (descs : List OrderDesc) : List Order :=
  descs.map fun d => ⟨d.id, d.name, d.prepTime, none, none⟩

/-- The couriers at simulation start, ids assigned in creation order
(`1 + len(self.couriers)`), each with its drawn delay and the arrival time
`submit + 1000 * delay` its travel sleep will complete at. -/
def initCouriers : Nat → List (OrderDesc × Nat) → List SimCourier
  | _, [] => []
  | k, (_, delay) :: rest =>
    ⟨k + 1, delay, submitTime k + 1000 * delay, none, false⟩ :: initCouriers (k + 1) rest

/-- Order preparation timers: at time `t`, an order whose preparation sleep
(`submit + 1000 * prep_time`) has expired gets `ready_at` set to that expiry
time; `k` is the insertion index of the first order in the list. -/
def updateReady (t : Nat) : Nat → List Order → List Order
  | _, [] => []
  | k, o :: rest =>
    (if o.ready_at.isNone && decide (submitTime k + 1000 * o.prep_time ≤ t) then
      { o with ready_at := some (submitTime k + 1000 * o.prep_time) }
    else o) :: updateReady t (k + 1) rest

/-- Courier travel timers: at time `t`, a courier whose travel sleep has
expired gets `arrived_at` set to the expiry time. -/
def updateArrived (t : Nat) (couriers : List SimCourier) : List SimCourier :=
  couriers.map fun c =>
    if c.arrived_at.isNone && decide (c.arriveTime ≤ t) then
      { c with arrived_at := some c.arriveTime }
    else c

/-- A FIFO courier's `get_next_order` loop sleeps 100 ms before each scan, so
its polls are due from 100 ms after arrival onward. -/
def pollDue (c : SimCourier) (t : Nat) : Bool :=
  match c.arrived_at with
  | some a => decide (a + 100 ≤ t)
  | none => false

/-- One 100 ms poll round of the FIFO run: each arrived unclaimed courier (in
courier-id order, the event loop's deterministic wake order) scans the shared
order collection via `scan_orders`; a successful scan records the pairing and
threads the updated collection to the remaining couriers. -/
def tryClaims (t : Nat) :
    List SimCourier → List Order → Option (List SimCourier × List Order × List Pairing)
  | [], orders => some ([], orders, [])
  | c :: rest, orders =>
    if c.claimed = false ∧ pollDue c t then
      match scan_orders c.id orders with
      | some (o, orders2) =>
        match mkPairing c.id o.id c.arrived_at o.ready_at with
        | some p =>
          match tryClaims t rest orders2 with
          | some (cs, os, ps) => some ({ c with claimed := true } :: cs, os, p :: ps)
          | none => none
        | none => none
      | none =>
        match tryClaims t rest orders with
        | some (cs, os, ps) => some (c :: cs, os, ps)
        | none => none
    else
      match tryClaims t rest orders with
      | some (cs, os, ps) => some (c :: cs, os, ps)
      | none => none

/-- The FIFO run's event loop, advanced in 100 ms steps (every sleep duration
in the script is a multiple of 100 ms): fire due preparation and travel
timers, then let due couriers poll for claims.  `fuel` bounds the number of
steps; completed pairings are accumulated in completion order. -/
def fifoLoop : Nat → Nat → List SimCourier → List Order → List Pairing → Option (List Pairing)
  | 0, _, _, _, pairs => some pairs
  | fuel + 1, t, couriers, orders, pairs =>
    match tryClaims t (updateArrived t couriers) (updateReady t 0 orders) with
    | none => none
    | some (cs, os, ps) => fifoLoop fuel (t + 100) cs os (pairs ++ ps)

/-- A step horizon past every submission, preparation and travel expiry, in
100 ms units. -/
def simFuel (descs : List OrderDesc) : Nat :=
  10 * (descs.length / 2 + 1) + 10 * descs.foldr (fun d m => max d.prepTime m) 0 + 160

/-- The matched run: the courier created for the order at position `k` is
bound to it; its arrival and the order's readiness both count from the batch
submission time, and the pairing completes once both timestamps are set. -/
def matchedPairs : Nat → List (OrderDesc × Nat) → Option (List Pairing)
  | _, [] => some []
  | k, (d, delay) :: rest =>
    match mkPairing (k + 1) d.id (some (submitTime k + 1000 * delay))
        (some (submitTime k + 1000 * d.prepTime)) with
    | some p =>
      match matchedPairs (k + 1) rest with
      | some ps => some (p :: ps)
      | none => none
    | none => none

/-- Result of one run: the travel-delay draws in draw order and the completed
pairings in completion order. -/
structure SimResult where
  draws : List Nat
  pairs : List Pairing
deriving Repr, DecidableEq

/-- One whole run under idealized timing: seed the generator, draw one travel
delay per courier in submission order, then complete every pairing under the
selected strategy.  `none` models a wait-split evaluation on a missing
timestamp. -/
def simulate (strat : Strategy) (descs : List OrderDesc) (seed : Nat) : Option SimResult :=
  match strat with
  | Strategy.matched =>
    (matchedPairs 0 (descs.zip (drawDelays descs.length seed).1)).map
      fun ps => ⟨(drawDelays descs.length seed).1, ps⟩
  | Strategy.fifo =>
    (fifoLoop (simFuel descs) 0 (initCouriers 0 (descs.zip (drawDelays descs.length seed).1))
      (initOrders descs) []).map fun ps => ⟨(drawDelays descs.length seed).1, ps⟩

/-- The `courier_wait_times` list built by `collect_stats`: one
`courier.get_wait_time()` value per completed pairing, in completion order. -/
def courier_wait_times (r : SimResult) : List Int :=
  r.pairs.map fun p => get_wait_time p.arrivedAt p.readyAt

/-- The `order_wait_times` list built by `collect_stats`: one
`courier.get_order_wait_time()` value per completed pairing. -/
def order_wait_times (r : SimResult) : List Int :=
  r.pairs.map fun p => get_order_wait_time p.arrivedAt p.readyAt

/-- The final `get_averages()` call at the end of `main`. -/
def final_averages (r : SimResult) : Option (ℚ × ℚ) :=
  get_averages ((courier_wait_times r).map fun w => (w : ℚ))
    ((order_wait_times r).map fun w => (w : ℚ))

/-- Errors a run can end with: `strategies[args.strategy]` raising `KeyError`
at startup, or a wait-split evaluation on a missing timestamp at runtime. -/
inductive MainError
  | unknownStrategy (name : String)
  | missingTimestamp
deriving Repr, DecidableEq

/-- `main`: seed the generator, look the strategy selector up (an unknown name
fails here, before any order is read or submitted), then run the whole
simulation. -/
def main (strategy : String) (descs : List OrderDesc) (seed : Nat) :
    Except MainError SimResult :=
  match strategies strategy with
  | none => Except.error (MainError.unknownStrategy strategy)
  | some strat =>
    match simulate strat descs seed with
    | none => Except.error MainError.missingTimestamp
    | some r => Except.ok r

/-- `Order.prepare` completing: the order's readiness timestamp is set. -/
def setReady (o : Order) (t : Nat) : Order :=
  { o with ready_at := some t }

/-- The observable mutations of the shared order collection during a FIFO-mode
run: `OrderManager.prepare` inserting a newly submitted (hence unclaimed)
order, `Order.prepare` finishing and setting an order's `ready_at`, and a
`get_next_order` scan claiming an order for a courier. -/
inductive OMStep : List Order → List Order → Prop
  | submit (s : List Order) (o : Order) (h : o.courier_id = none) :
      OMStep s (s ++ [o])
  | ready (s : List Order) (i : Nat) (t : Nat) (h : i < s.length) :
      OMStep s (s.set i (setReady (s.get ⟨i, h⟩) t))
  | claim (s : List Order) (cid : Nat) (o : Order) (s2 : List Order)
      (h : scan_orders cid s = some (o, s2)) :
      OMStep s s2

/-- Positions keep any already-set claim across an evolution of the order
collection: nothing shrinks the collection and no set `courier_id` is ever
overwritten. -/
def claims_preserved (s t : List Order) : Prop :=
  s.length ≤ t.length ∧
  ∀ (i : Nat) (hs : i < s.length) (ht : i < t.length) (c : Nat),
    (s.get ⟨i, hs⟩).courier_id = some c → (t.get ⟨i, ht⟩).courier_id = some c

theorem drawDelays_length (n : Nat) : ∀ s : Nat, (drawDelays n s).1.length = n := by
  induction n with
  | zero => intro s; rfl
  | succ m ih => intro s; simp [drawDelays, ih]

theorem randint_3_15_range (s : Nat) :
    3 ≤ (randint 3 15 s).1 ∧ (randint 3 15 s).1 ≤ 15 := by
  have h : rngNext s % 13 < 13 := Nat.mod_lt _ (by omega)
  have e : (randint 3 15 s).1 = 3 + rngNext s % 13 := rfl
  rw [e]
  omega

theorem drawDelays_mem (n : Nat) :
    ∀ s : Nat, ∀ d ∈ (drawDelays n s).1, 3 ≤ d ∧ d ≤ 15 := by
  induction n with
  | zero => intro s d hd; cases hd
  | succ m ih =>
    intro s d hd
    simp only [drawDelays, List.mem_cons] at hd
    rcases hd with h | h
    · rw [h]; exact randint_3_15_range s
    · exact ih _ d h

theorem simulate_draws (strat : Strategy) (descs : List OrderDesc) (seed : Nat)
    (res : SimResult) (h : simulate strat descs seed = some res) :
    res.draws = (drawDelays descs.length seed).1 := by
  cases strat <;> simp only [simulate, Option.map_eq_some'] at h <;>
    obtain ⟨ps, hps, hres⟩ := h <;> exact hres ▸ rfl

/-- Claim C1: for every completed pairing the recorded wait split is zero-sum:
if the courier arrived strictly before the order was ready, the courier wait is
`ready_at - arrived_at` and the order wait is zero; otherwise the order wait is
`arrived_at - ready_at` and the courier wait is zero; so away from equal
timestamps exactly one of the two entries is non-zero, and at equal timestamps
both are zero. -/
theorem wait_split_zero_sum (a r : Int) :
    (a < r → get_wait_time a r = r - a ∧ get_order_wait_time a r = 0) ∧
    (r ≤ a → get_order_wait_time a r = a - r ∧ get_wait_time a r = 0) ∧
    (a = r → get_wait_time a r = 0 ∧ get_order_wait_time a r = 0) ∧
    (a ≠ r → (get_wait_time a r = 0 ↔ get_order_wait_time a r ≠ 0)) := by
  unfold get_wait_time get_order_wait_time
  by_cases h : a < r <;> simp [h] <;> omega

theorem wait_split_zero_sum_witness :
    ((2 : Int) < 5 ∧ get_wait_time 2 5 = 3 ∧ get_order_wait_time 2 5 = 0) ∧
    ((5 : Int) ≤ 7 ∧ get_order_wait_time 7 5 = 2 ∧ get_wait_time 7 5 = 0) :=
  ⟨⟨by decide, (wait_split_zero_sum 2 5).1 (by decide)⟩,
   ⟨by decide, (wait_split_zero_sum 7 5).2.1 (by decide)⟩⟩

/-- Claim C8: every entry of `courier_wait_times` and of `order_wait_times` is
non-negative, in any run under either policy. -/
theorem waits_nonneg :
    (∀ a r : Int, 0 ≤ get_wait_time a r ∧ 0 ≤ get_order_wait_time a r) ∧
    (∀ strat descs seed res, simulate strat descs seed = some res →
      (∀ w ∈ courier_wait_times res, 0 ≤ w) ∧ (∀ w ∈ order_wait_times res, 0 ≤ w)) := by
  have base : ∀ a r : Int, 0 ≤ get_wait_time a r ∧ 0 ≤ get_order_wait_time a r := by
    intro a r
    unfold get_wait_time get_order_wait_time
    by_cases h : a < r <;> simp [h] <;> omega
  refine ⟨base, ?_⟩
  intro strat descs seed res _
  constructor
  · intro w hw
    obtain ⟨p, _, hp⟩ := List.mem_map.mp hw
    exact hp ▸ (base p.arrivedAt p.readyAt).1
  · intro w hw
    obtain ⟨p, _, hp⟩ := List.mem_map.mp hw
    exact hp ▸ (base p.arrivedAt p.readyAt).2

theorem waits_nonneg_witness :
    simulate Strategy.matched [⟨"o1", "Pizza", 1⟩] 5 =
      some ⟨[15], [⟨1, "o1", 16000, 2000⟩]⟩ ∧
    (∀ w ∈ courier_wait_times ⟨[15], [⟨1, "o1", 16000, 2000⟩]⟩, 0 ≤ w) ∧
    (∀ w ∈ order_wait_times ⟨[15], [⟨1, "o1", 16000, 2000⟩]⟩, 0 ≤ w) :=
  ⟨by decide,
   (waits_nonneg.2 Strategy.matched [⟨"o1", "Pizza", 1⟩] 5 _ (by decide)).1,
   (waits_nonneg.2 Strategy.matched [⟨"o1", "Pizza", 1⟩] 5 _ (by decide)).2⟩

/-- Claim C5: `get_averages` on zero recorded completions (both lists empty)
fails rather than returning a zero result; on non-empty lists it returns the
arithmetic mean of each list. -/
theorem get_averages_spec :
    get_averages [] [] = none ∧
    ∀ cw ow : List ℚ, cw ≠ [] → ow ≠ [] →
      get_averages cw ow = some (cw.sum / cw.length, ow.sum / ow.length) := by
  constructor
  · simp [get_averages]
  · intro cw ow h1 h2
    rw [get_averages, if_neg]
    push_neg
    exact ⟨fun h => h1 (List.length_eq_zero.mp h), fun h => h2 (List.length_eq_zero.mp h)⟩

theorem get_averages_spec_witness :
    ([(3 : ℚ)] ≠ [] ∧ [(0 : ℚ)] ≠ []) ∧ get_averages [3] [0] = some (3, 0) := by
  refine ⟨⟨by decide, by decide⟩, ?_⟩
  rw [get_averages_spec.2 [3] [0] (by decide) (by decide)]
  norm_num

/-- Claim C6: an unrecognized strategy selector makes the run fail at startup
with a configuration error that names the selector and is distinct from the
runtime matching failure, uniformly in the submitted orders; the two
recognized selectors map to the corresponding courier-manager variants. -/
theorem strategy_selection :
    strategies "matched" = some Strategy.matched ∧
    strategies "fifo" = some Strategy.fifo ∧
    (∀ s descs seed, s ≠ "matched" → s ≠ "fifo" →
      main s descs seed = Except.error (MainError.unknownStrategy s)) ∧
    (∀ s, MainError.unknownStrategy s ≠ MainError.missingTimestamp) := by
  refine ⟨rfl, rfl, ?_, ?_⟩
  · intro s descs seed h1 h2
    simp [main, strategies, h1, h2]
  · intro s h
    exact MainError.noConfusion h

theorem strategy_selection_witness :
    ("pool" ≠ "matched" ∧ "pool" ≠ "fifo") ∧
    main "pool" [⟨"o1", "Pizza", 5⟩] 777 =
      Except.error (MainError.unknownStrategy "pool") :=
  ⟨⟨by decide, by decide⟩,
   strategy_selection.2.2.1 "pool" [⟨"o1", "Pizza", 5⟩] 777 (by decide) (by decide)⟩

/-- Claim C7: every courier's travel delay is drawn exactly once at courier
creation from `random.randint(3, 15)`, so each draw lies in `[3, 15]` and a
run makes exactly one draw per courier (one courier per submitted order). -/
theorem travel_delay_range :
    (∀ s : Nat, 3 ≤ (randint 3 15 s).1 ∧ (randint 3 15 s).1 ≤ 15) ∧
    (∀ strat descs seed res, simulate strat descs seed = some res →
      res.draws.length = descs.length ∧ ∀ d ∈ res.draws, 3 ≤ d ∧ d ≤ 15) := by
  refine ⟨randint_3_15_range, ?_⟩
  intro strat descs seed res h
  rw [simulate_draws strat descs seed res h]
  exact ⟨drawDelays_length descs.length seed, drawDelays_mem descs.length seed⟩

theorem travel_delay_range_witness :
    simulate Strategy.matched [⟨"o1", "Pizza", 1⟩] 777 =
      some ⟨[9], [⟨1, "o1", 10000, 2000⟩]⟩ ∧
    ([9].length = 1 ∧ ∀ d ∈ [9], 3 ≤ d ∧ d ≤ 15) :=
  ⟨by decide,
   travel_delay_range.2 Strategy.matched [⟨"o1", "Pizza", 1⟩] 777
     ⟨[9], [⟨1, "o1", 10000, 2000⟩]⟩ (by decide)⟩

/-- Claim C9: the driver submits descriptors two at a time, once per tick, in
input order: each batch is the first two remaining descriptors (or the single
remaining one), batches concatenate back to the input list, and there are
`ceil(n / 2)` ticks. -/
theorem driver_batching : ∀ l : List OrderDesc,
    (submitBatches l).flatten = l ∧
    (∀ b ∈ submitBatches l, b ≠ [] ∧ b.length ≤ 2) ∧
    (submitBatches l).length = (l.length + 1) / 2
  | [] => by simp [submitBatches]
  | [a] => by simp [submitBatches]
  | a :: b :: rest => by
    have ih := driver_batching rest
    refine ⟨?_, ?_, ?_⟩
    · simp [submitBatches, ih.1]
    · intro batch hb
      rw [submitBatches, List.mem_cons] at hb
      rcases hb with h | h
      · subst h; exact ⟨by simp, by simp⟩
      · exact ih.2.1 batch h
    · have := ih.2.2
      simp only [submitBatches, List.length_cons, this]
      omega

theorem driver_batching_witness :
    (submitBatches [⟨"o1", "Pizza", 5⟩, ⟨"o2", "Salad", 2⟩, ⟨"o3", "Tea", 1⟩]).flatten =
      [⟨"o1", "Pizza", 5⟩, ⟨"o2", "Salad", 2⟩, ⟨"o3", "Tea", 1⟩] ∧
    ([(⟨"o1", "Pizza", 5⟩ : OrderDesc), ⟨"o2", "Salad", 2⟩] ∈
      submitBatches [⟨"o1", "Pizza", 5⟩, ⟨"o2", "Salad", 2⟩, ⟨"o3", "Tea", 1⟩] ∧
     [(⟨"o1", "Pizza", 5⟩ : OrderDesc), ⟨"o2", "Salad", 2⟩] ≠ [] ∧
     [(⟨"o1", "Pizza", 5⟩ : OrderDesc), ⟨"o2", "Salad", 2⟩].length ≤ 2) :=
  ⟨(driver_batching [⟨"o1", "Pizza", 5⟩, ⟨"o2", "Salad", 2⟩, ⟨"o3", "Tea", 1⟩]).1,
   by decide,
   (driver_batching [⟨"o1", "Pizza", 5⟩, ⟨"o2", "Salad", 2⟩, ⟨"o3", "Tea", 1⟩]).2.1
     _ (by decide)⟩

/-- Claim C4: two runs with identical input descriptors, identical strategy
selector and identical seed produce identical results, in particular identical
sequences of travel-delay draws and identical final averages. -/
theorem run_determinism (s1 s2 : String) (descs1 descs2 : List OrderDesc)
    (seed1 seed2 : Nat) (hs : s1 = s2) (hd : descs1 = descs2) (hseed : seed1 = seed2) :
    main s1 descs1 seed1 = main s2 descs2 seed2 ∧
    (main s1 descs1 seed1).toOption.map SimResult.draws
      = (main s2 descs2 seed2).toOption.map SimResult.draws ∧
    (main s1 descs1 seed1).toOption.map final_averages
      = (main s2 descs2 seed2).toOption.map final_averages := by
  subst hs hd hseed
  exact ⟨rfl, rfl, rfl⟩

theorem run_determinism_witness :
    main "fifo" [⟨"o1", "Pizza", 5⟩, ⟨"o2", "Salad", 2⟩] 777
      = main "fifo" [⟨"o1", "Pizza", 5⟩, ⟨"o2", "Salad", 2⟩] 777 ∧
    (main "fifo" [⟨"o1", "Pizza", 5⟩, ⟨"o2", "Salad", 2⟩] 777).toOption.map SimResult.draws
      = (main "fifo" [⟨"o1", "Pizza", 5⟩, ⟨"o2", "Salad", 2⟩] 777).toOption.map
          SimResult.draws ∧
    (main "fifo" [⟨"o1", "Pizza", 5⟩, ⟨"o2", "Salad", 2⟩] 777).toOption.map final_averages
      = (main "fifo" [⟨"o1", "Pizza", 5⟩, ⟨"o2", "Salad", 2⟩] 777).toOption.map
          final_averages :=
  run_determinism "fifo" "fifo" [⟨"o1", "Pizza", 5⟩, ⟨"o2", "Salad", 2⟩]
    [⟨"o1", "Pizza", 5⟩, ⟨"o2", "Salad", 2⟩] 777 777 rfl rfl rfl

/-- Claim C2: a FIFO courier requesting the next order receives the first
order in insertion order that is ready and unclaimed, with its `courier_id`
set to the requesting courier's id in the returned order and in the updated
collection; insertion order takes precedence over readiness time among ready
candidates. -/
theorem fifo_first_ready_unclaimed (cid : Nat) (pre post : List Order) (o : Order)
    (hpre : ∀ p ∈ pre, claimable p = false) (ho : claimable o = true) :
    scan_orders cid (pre ++ o :: post) =
      some ({ o with courier_id := some cid },
            pre ++ { o with courier_id := some cid } :: post) := by
  induction pre with
  | nil => simp [scan_orders, ho]
  | cons q qs ih =>
    have hq : claimable q = false := hpre q (List.mem_cons_self q qs)
    have ih2 := ih fun p hp => hpre p (List.mem_cons_of_mem q hp)
    simp [scan_orders, hq, ih2]

theorem fifo_first_ready_unclaimed_witness :
    ((∀ p ∈ ([] : List Order), claimable p = false) ∧
      claimable ⟨"A", "Pizza", 5, some 6000, none⟩ = true) ∧
    scan_orders 7
        [⟨"A", "Pizza", 5, some 6000, none⟩, ⟨"B", "Salad", 2, some 3000, none⟩] =
      some (⟨"A", "Pizza", 5, some 6000, some 7⟩,
            [⟨"A", "Pizza", 5, some 6000, some 7⟩, ⟨"B", "Salad", 2, some 3000, none⟩]) :=
  ⟨⟨fun p hp => absurd hp (List.not_mem_nil p), by decide⟩,
   fifo_first_ready_unclaimed 7 [] [⟨"B", "Salad", 2, some 3000, none⟩]
     ⟨"A", "Pizza", 5, some 6000, none⟩
     (fun p hp => absurd hp (List.not_mem_nil p)) (by decide)⟩

theorem scan_orders_returns (cid : Nat) :
    ∀ (s : List Order) (o : Order) (s2 : List Order),
      scan_orders cid s = some (o, s2) →
      o.ready_at.isSome = true ∧ o.courier_id = some cid
  | [], o, s2 => by intro h; exact absurd h (by simp [scan_orders])
  | q :: rest, o, s2 => by
    intro h
    rw [scan_orders] at h
    by_cases hq : claimable q = true
    · rw [if_pos hq] at h
      simp only [Option.some.injEq, Prod.mk.injEq] at h
      obtain ⟨ho, _⟩ := h
      have hq2 : q.ready_at.isSome = true ∧ q.courier_id.isNone = true := by
        simpa [claimable] using hq
      rw [← ho]
      exact ⟨hq2.1, rfl⟩
    · rw [if_neg hq] at h
      cases hrec : scan_orders cid rest with
      | none => rw [hrec] at h; exact absurd h (by simp)
      | some p =>
        rw [hrec] at h
        simp only [Option.some.injEq, Prod.mk.injEq] at h
        obtain ⟨ho, _⟩ := h
        rw [← ho]
        exact scan_orders_returns cid rest p.1 p.2 (by rw [hrec])

theorem scan_orders_preserves (cid : Nat) :
    ∀ (s : List Order) (o : Order) (s2 : List Order),
      scan_orders cid s = some (o, s2) →
      s2.length = s.length ∧
      ∀ (i : Nat) (hs : i < s.length) (hs2 : i < s2.length) (c : Nat),
        (s.get ⟨i, hs⟩).courier_id = some c → (s2.get ⟨i, hs2⟩).courier_id = some c
  | [], o, s2 => by intro h; exact absurd h (by simp [scan_orders])
  | q :: rest, o, s2 => by
    intro h
    rw [scan_orders] at h
    by_cases hq : claimable q = true
    · rw [if_pos hq] at h
      simp only [Option.some.injEq, Prod.mk.injEq] at h
      obtain ⟨_, hs2⟩ := h
      subst hs2
      refine ⟨by simp, ?_⟩
      intro i hs hs2 c hc
      match i with
      | 0 =>
        have hq2 : q.ready_at.isSome = true ∧ q.courier_id = none := by
          simpa [claimable, Option.isNone_iff_eq_none] using hq
        exact absurd (hq2.2 ▸ hc) (by simp)
      | j + 1 => exact hc
    · rw [if_neg hq] at h
      cases hrec : scan_orders cid rest with
      | none => rw [hrec] at h; exact absurd h (by simp)
      | some p =>
        rw [hrec] at h
        simp only [Option.some.injEq, Prod.mk.injEq] at h
        obtain ⟨_, hs2⟩ := h
        subst hs2
        have ih := scan_orders_preserves cid rest p.1 p.2 (by rw [hrec])
        refine ⟨by simp [ih.1], ?_⟩
        intro i hs hs2 c hc
        match i with
        | 0 => exact hc
        | j + 1 =>
          exact ih.2 j (Nat.lt_of_succ_lt_succ hs) (Nat.lt_of_succ_lt_succ hs2) c hc

theorem omStep_preserves {s t : List Order} (h : OMStep s t) : claims_preserved s t := by
  cases h with
  | submit o ho =>
    refine ⟨by simp, ?_⟩
    intro i hs ht c hc
    simp only [List.get_eq_getElem, Fin.val_mk] at hc ⊢
    rw [List.getElem_append_left hs]
    exact hc
  | ready i tt hi =>
    refine ⟨by simp, ?_⟩
    intro j hs ht c hc
    simp only [List.get_eq_getElem, Fin.val_mk] at hc ⊢
    by_cases hji : j = i
    · subst hji
      rw [List.getElem_set_self]
      exact hc
    · rw [List.getElem_set_ne fun he => hji he.symm]
      exact hc
  | claim cid o s2 hscan =>
    have hp := scan_orders_preserves cid s o t hscan
    exact ⟨le_of_eq hp.1.symm, hp.2⟩

theorem claims_preserved_refl (s : List Order) : claims_preserved s s :=
  ⟨le_refl _, fun _ _ _ _ hc => hc⟩

theorem claims_preserved_trans {s t u : List Order}
    (h1 : claims_preserved s t) (h2 : claims_preserved t u) : claims_preserved s u :=
  ⟨le_trans h1.1 h2.1, fun i hs hu c hc =>
    h2.2 i (lt_of_lt_of_le hs h1.1) hu c (h1.2 i hs (lt_of_lt_of_le hs h1.1) c hc)⟩

/-- Claim C3: over any FIFO-mode evolution of the order collection, an
order's `courier_id` is set at most once: once a position holds a claimed
order, every later state holds it with the same claiming courier, so no later
`get_next_order` scan ever re-claims it. -/
theorem courier_claim_write_once (s t : List Order)
    (h : Relation.ReflTransGen OMStep s t) (i c : Nat) (hs : i < s.length)
    (hc : (s.get ⟨i, hs⟩).courier_id = some c) :
    ∃ ht : i < t.length, (t.get ⟨i, ht⟩).courier_id = some c := by
  have hp : claims_preserved s t := by
    induction h with
    | refl => exact claims_preserved_refl s
    | tail _ hstep ih => exact claims_preserved_trans ih (omStep_preserves hstep)
  exact ⟨lt_of_lt_of_le hs hp.1, hp.2 i hs (lt_of_lt_of_le hs hp.1) c hc⟩

theorem courier_claim_write_once_witness :
    ∃ ht : 0 < [(⟨"A", "Pizza", 5, some 6000, some 5⟩ : Order),
                ⟨"B", "Salad", 2, none, none⟩].length,
      (List.get [(⟨"A", "Pizza", 5, some 6000, some 5⟩ : Order),
                 ⟨"B", "Salad", 2, none, none⟩] ⟨0, ht⟩).courier_id = some 5 :=
  courier_claim_write_once [⟨"A", "Pizza", 5, some 6000, some 5⟩]
    [⟨"A", "Pizza", 5, some 6000, some 5⟩, ⟨"B", "Salad", 2, none, none⟩]
    (Relation.ReflTransGen.single
      (OMStep.submit [⟨"A", "Pizza", 5, some 6000, some 5⟩]
        ⟨"B", "Salad", 2, none, none⟩ rfl))
    0 5 (by decide) (by decide)

theorem pollDue_arrived {c : SimCourier} {t : Nat} (h : pollDue c t = true) :
    ∃ a, c.arrived_at = some a := by
  unfold pollDue at h
  cases hc : c.arrived_at with
  | none => rw [hc] at h; exact absurd h (by simp)
  | some a => exact ⟨a, rfl⟩

theorem mkPairing_isSome (cid : Nat) (oid : String) {a r : Option Nat}
    (ha : a.isSome = true) (hr : r.isSome = true) :
    (mkPairing cid oid a r).isSome = true := by
  cases a with
  | none => exact absurd ha (by simp)
  | some x =>
    cases r with
    | none => exact absurd hr (by simp)
    | some y => rfl

theorem tryClaims_isSome (t : Nat) :
    ∀ (cs : List SimCourier) (orders : List Order),
      (tryClaims t cs orders).isSome = true
  | [], _ => rfl
  | c :: rest, orders => by
    rw [tryClaims]
    by_cases hcond : c.claimed = false ∧ pollDue c t = true
    · rw [if_pos hcond]
      cases hscan : scan_orders c.id orders with
      | none =>
        obtain ⟨w, hw⟩ := Option.isSome_iff_exists.mp (tryClaims_isSome t rest orders)
        obtain ⟨cs2, os2, ps2⟩ := w
        simp [hw]
      | some p =>
        obtain ⟨o, orders2⟩ := p
        obtain ⟨a, ha⟩ := pollDue_arrived hcond.2
        have hr := (scan_orders_returns c.id orders o orders2 hscan).1
        obtain ⟨q, hq⟩ := Option.isSome_iff_exists.mp
          (@mkPairing_isSome c.id o.id c.arrived_at o.ready_at (by rw [ha]; rfl) hr)
        obtain ⟨w, hw⟩ := Option.isSome_iff_exists.mp (tryClaims_isSome t rest orders2)
        obtain ⟨cs2, os2, ps2⟩ := w
        simp [hq, hw]
    · rw [if_neg hcond]
      obtain ⟨w, hw⟩ := Option.isSome_iff_exists.mp (tryClaims_isSome t rest orders)
      obtain ⟨cs2, os2, ps2⟩ := w
      simp [hw]

theorem fifoLoop_isSome :
    ∀ (fuel t : Nat) (cs : List SimCourier) (orders : List Order) (pairs : List Pairing),
      (fifoLoop fuel t cs orders pairs).isSome = true
  | 0, _, _, _, _ => rfl
  | fuel + 1, t, cs, orders, pairs => by
    rw [fifoLoop]
    obtain ⟨w, hw⟩ := Option.isSome_iff_exists.mp
      (tryClaims_isSome t (updateArrived t cs) (updateReady t 0 orders))
    obtain ⟨cs2, os2, ps2⟩ := w
    rw [hw]
    exact fifoLoop_isSome fuel (t + 100) cs2 os2 (pairs ++ ps2)

theorem matchedPairs_isSome :
    ∀ (k : Nat) (l : List (OrderDesc × Nat)), (matchedPairs k l).isSome = true
  | _, [] => rfl
  | k, (d, delay) :: rest => by
    obtain ⟨w, hw⟩ := Option.isSome_iff_exists.mp (matchedPairs_isSome (k + 1) rest)
    simp [matchedPairs, mkPairing, hw]

/-- Claim C10: in every run under either policy, every wait-split evaluation
is performed with both the courier's `arrived_at` and its order's `ready_at`
already set, so no run ends in the missing-timestamp error: `simulate` always
yields a result. -/
theorem wait_timestamps_always_set (strat : Strategy) (descs : List OrderDesc)
    (seed : Nat) : (simulate strat descs seed).isSome = true := by
  cases strat with
  | matched =>
    obtain ⟨w, hw⟩ := Option.isSome_iff_exists.mp
      (matchedPairs_isSome 0 (descs.zip (drawDelays descs.length seed).1))
    simp [simulate, hw]
  | fifo =>
    obtain ⟨w, hw⟩ := Option.isSome_iff_exists.mp
      (fifoLoop_isSome (simFuel descs) 0
        (initCouriers 0 (descs.zip (drawDelays descs.length seed).1)) (initOrders descs) [])
    simp [simulate, hw]

end OrderSim
